import Mathlib

/-
Verification of the intent-classification and direct-formatting fast path of
`github_pipe.py` (class `Pipe`).

Python strings are modelled as `List Char` (`Str`); Python `dict`-shaped API
records become structures with `Option`-valued fields (`none` models both an
absent key and a JSON `null`).  Network effects are modelled by passing the
outcome of the HTTP call (`NetResult` / `ToolNet`) as an explicit argument.
All definitions are structurally recursive (fuelled where the Python loop
skips ahead), so every function evaluates by kernel reduction.
-/

namespace GithubPipe

abbrev Str := List Char

/-- ASCII whitespace, modelling Python `str.strip` / `str.split()` whitespace. -/
def wsChar (c : Char) : Bool :=
  c = ' ' || c = '\t' || c = '\n' || c = '\r' || c = '\x0b' || c = '\x0c'

/-- Python regex `\w` (ASCII range): letters, digits, underscore. -/
def wordChar (c : Char) : Bool :=
  c.isAlphanum || c = '_'

/-- Python `str.lower()`. -/
def lowerS (s : Str) : Str := s.map Char.toLower

/-- `leadsOf p s` : `p` is an initial segment of `s` (Python `str.startswith`). -/
def leadsOf : Str → Str → Bool
  | [], _ => true
  | _ :: _, [] => false
  | a :: p, b :: s => (a == b) && leadsOf p s

/-- Python `sub in s` — substring containment. -/
def containsSub : Str → Str → Bool
  | s, sub =>
    if leadsOf sub s then true
    else
      match s with
      | [] => false
      | _ :: t => containsSub t sub

/-- Python `str.strip()` with no argument. -/
def strip (s : Str) : Str :=
  ((s.dropWhile wsChar).reverse.dropWhile wsChar).reverse

/-- Python `content.split('\n')` — keeps empty pieces; `"".split('\n') = [""]`. -/
def splitNL : Str → List Str
  | [] => [[]]
  | c :: t =>
    match splitNL t with
    | [] => [[]]
    | h :: r => if c = '\n' then [] :: h :: r else (c :: h) :: r

/-- Python `'\n'.join(lines)`. -/
def joinNL : List Str → Str
  | [] => []
  | [l] => l
  | l :: ls => l ++ '\n' :: joinNL ls

/-- Python `' '.join(parts)`. -/
def joinSpace : List Str → Str
  | [] => []
  | [l] => l
  | l :: ls => l ++ ' ' :: joinSpace ls

/-- Helper for Python `str.split()` (no argument): accumulate the current word
(reversed) and break on whitespace runs, emitting no empty words. -/
def splitWsAux (cur : Str) : Str → List Str
  | [] => if cur = [] then [] else [cur.reverse]
  | c :: t =>
    if wsChar c then
      if cur = [] then splitWsAux [] t else cur.reverse :: splitWsAux [] t
    else
      splitWsAux (c :: cur) t

/-- Python `str.split()` with no argument. -/
def splitWs (s : Str) : List Str := splitWsAux [] s

/-- Decimal digit to character. -/
def digitChar (d : Nat) : Char := Char.ofNat (48 + d)

/-- Decimal rendering of a natural number, fuelled (fuel ≥ 1 suffices per digit). -/
def natDigitsF : Nat → Nat → Str
  | 0, _ => []
  | f + 1, n => if n < 10 then [digitChar n] else natDigitsF f (n / 10) ++ [digitChar (n % 10)]

/-- Python `str(n)` for a natural number. -/
def natToStr (n : Nat) : Str := natDigitsF (n + 1) n

/-- Python `str(n)` for an integer. -/
def intToStr (n : Int) : Str :=
  if n < 0 then '-' :: natToStr n.natAbs else natToStr n.toNat

/-- The backquote character (code point 96). -/
def btChar : Char := Char.ofNat 96

/-! ## Format detection (`Pipe._detect_format`, `Pipe._detect_chart_type`) -/

/-- `Pipe._detect_format`: keyword containment on the lowercased message,
chart keywords first, then table keywords, else `"default"`. -/
def _detect_format (user_msg : Str) : Str :=
  let msg := lowerS user_msg
  if containsSub msg "pie chart".data || containsSub msg "bar chart".data ||
     containsSub msg "chart".data || containsSub msg "line chart".data ||
     containsSub msg "graph".data then "chart".data
  else if containsSub msg "table".data || containsSub msg "tabular".data then "table".data
  else "default".data

/-- `Pipe._detect_chart_type`: `"bar"` if the lowercased message contains
`"bar"`, else `"line"` if it contains `"line"`, else `"pie"`. -/
def _detect_chart_type (user_msg : Str) : Str :=
  let msg := lowerS user_msg
  if containsSub msg "bar".data then "bar".data
  else if containsSub msg "line".data then "line".data
  else "pie".data

/-! ## The owner/name regex `([\w.-]+/[\w.-]+)` (`re.search`)

The character class and `/` are disjoint, so the greedy `+` quantifiers never
benefit from backtracking: a match attempt at a position takes the maximal
class run, requires a `/`, then a nonempty maximal class run.  `re.search`
tries start positions left to right and returns the first success. -/

/-- A character of the class `[\w.-]` (ASCII reading of `\w`). -/
def clsChar (c : Char) : Bool :=
  c.isAlphanum || c = '_' || c = '.' || c = '-'

/-- Attempt the pattern `([\w.-]+/[\w.-]+)` anchored at the head of `s`. -/
def tryRepoAt (s : Str) : Option Str :=
  match List.takeWhile clsChar s, List.dropWhile clsChar s with
  | [], _ => none
  | r1, '/' :: rest2 =>
    match List.takeWhile clsChar rest2 with
    | [] => none
    | r2 => some (r1 ++ '/' :: r2)
  | _, _ => none

/-- `re.search(r'([\w.-]+/[\w.-]+)', user_msg)` — first match, scanning left to right. -/
def reSearchRepo : Str → Option Str
  | [] => none
  | c :: t =>
    match tryRepoAt (c :: t) with
    | some m => some m
    | none => reSearchRepo t

/-! ## The noise-word substitution

`re.sub(r'\b(show|…|order)\b', '', msg)`.  Every alternative starts and ends
with a `\w` character, so the leading `\b` demands that the previous character
of the original text not be a `\w` character, and the trailing `\b` demands
that the character right after the match not be one.  `re.sub` replaces
non-overlapping matches left to right, trying alternatives in written order. -/

/-- The alternatives of the noise-word regex, in the order written in the source. -/
def noiseAlts : List Str :=
  ["show", "display", "list", "get", "find", "search", "give", "me", "the", "a",
   "an", "in", "as", "for", "of", "with", "top", "most", "popular", "trending",
   "recent", "latest", "new", "all", "some", "table", "chart", "pie", "bar",
   "line", "tabular", "format", "graph", "repositories", "repository", "repos",
   "repo", "projects", "issues", "pull requests", "prs", "bugs", "by",
   "language", "stars", "sorted", "sort", "order"].map String.data

/-- The trailing `\b`: the remainder after the match must not start with `\w`. -/
def bdryAfter : Str → Bool
  | [] => true
  | c :: _ => !wordChar c

/-- First alternative (in written order) matching at the head of `s`,
with the trailing word boundary satisfied. -/
def firstAlt (s : Str) : Option Str :=
  noiseAlts.find? (fun w => leadsOf w s && bdryAfter (List.drop w.length s))

/-- The substitution loop; `prev` records whether the previous character of the
original text is a `\w` character (the leading `\b`).  Fuelled: each step
consumes at least one character, so `fuel = s.length` suffices. -/
def subNoiseF : Nat → Bool → Str → Str
  | 0, _, s => s
  | _ + 1, _, [] => []
  | f + 1, prev, c :: t =>
    match (if prev then none else firstAlt (c :: t)) with
    | some w => subNoiseF f true (List.drop (w.length - 1) t)
    | none => c :: subNoiseF f (wordChar c) t

/-- `re.sub(noise_pattern, '', msg)`. -/
def subNoise (s : Str) : Str := subNoiseF s.length false s

/-! ## `Pipe._extract_search_params` -/

/-- The fixed language-name set of `_extract_search_params`. -/
def languagesL : List Str :=
  ["python", "javascript", "typescript", "java", "go", "rust", "c++", "ruby",
   "swift", "kotlin", "dart", "php", "scala", "c", "shell"].map String.data

/-- The search-type detection of `_extract_search_params` (`msg` already
lowercased): issue keywords first, then pull-request keywords, else repos. -/
def searchTypeOf (msg : Str) : Str :=
  if containsSub msg "issue".data || containsSub msg "bug".data ||
     containsSub msg "issues".data then "issues".data
  else if containsSub msg "pull request".data || containsSub msg "pr ".data ||
          containsSub msg "prs".data || containsSub msg "pull requests".data then "prs".data
  else "repos".data

/-- The keyword extraction of `_extract_search_params`:
`[w.strip() for w in clean.split() if len(w.strip()) > 2]`. -/
def keywordsOf (msg : Str) : List Str :=
  ((splitWs (subNoise msg)).map strip).filter (fun w => 2 < w.length)

/-- The popularity test of `_extract_search_params`. -/
def popularityIn (msg : Str) : Bool :=
  containsSub msg "popular".data || containsSub msg "top".data ||
    containsSub msg "trending".data

/-- The keyword branch of the query construction (`elif keywords: ... else:`),
on the lowercased message. -/
def kwBranchOf (msg : Str) : Str :=
  let keywords := keywordsOf msg
  if keywords ≠ [] then
    let lang_parts := (keywords.filter (fun k => k ∈ languagesL)).map
      (fun k => "language:".data ++ k)
    let topic_parts := keywords.filter (fun k => k ∉ languagesL)
    let parts := topic_parts ++ lang_parts
    let parts := if popularityIn msg then parts ++ ["stars:>100".data] else parts
    if parts ≠ [] then joinSpace parts else "stars:>1000".data
  else "stars:>1000".data

/-- `Pipe._extract_search_params`: extract `(search_type, query, sort)` from the
user message.  The owner/repo regex runs on the original-case message; all
keyword matching runs on the lowercased one. -/
def _extract_search_params (user_msg : Str) : Str × Str × Str :=
  let msg := lowerS user_msg
  let search_type := searchTypeOf msg
  let repo_match := reSearchRepo user_msg
  match repo_match with
  | some rm =>
    if search_type = "issues".data ∨ search_type = "prs".data then
      (search_type, "repo:".data ++ rm, "created".data)
    else (search_type, kwBranchOf msg, "stars".data)
  | none => (search_type, kwBranchOf msg, "stars".data)

/-! ## Numeric and text formatting (`Pipe._fmt_number`, `Pipe._trunc`) -/

/-- Rounding of `x / d` to the nearest integer, ties to even — the composite of
float division and `%.1f` formatting in `_fmt_number` (exact, hence float-model
independent, at every division appearing in the claims). -/
def roundHE (x d : Nat) : Nat :=
  let q := x / d
  let r := x % d
  if 2 * r < d then q
  else if d < 2 * r then q + 1
  else if q % 2 = 0 then q else q + 1

/-- `f"{n/d:.1f}"` for a nonnegative integer `n`: one decimal digit. -/
def fmtDiv1 (n : Nat) (d : Nat) : Str :=
  let t := roundHE (10 * n) d
  natToStr (t / 10) ++ '.' :: [digitChar (t % 10)]

/-- `Pipe._fmt_number`: `None → "0"`, `n ≥ 1e6 → "#.#M"`, `n ≥ 1e3 → "#.#k"`,
else `str(n)`. -/
def _fmt_number : Option Int → Str
  | none => "0".data
  | some n =>
    if 1000000 ≤ n then fmtDiv1 n.toNat 1000000 ++ ['M']
    else if 1000 ≤ n then fmtDiv1 n.toNat 1000 ++ ['k']
    else intToStr n

/-- `Pipe._trunc`: empty/falsy becomes `"-"`, text longer than `length` is cut
and suffixed with `"..."`. -/
def _trunc (s : Str) (length : Nat := 50) : Str :=
  if s = [] then "-".data
  else if length < s.length then s.take length ++ "...".data
  else s

/-! ## Search-result records

A GitHub search item is a JSON object read with `dict.get`; `none` models both
an absent key and a JSON `null` (the two are indistinguishable through the
renderers: every consumer either supplies a default or tests truthiness). -/

structure Item where
  full_name : Option Str := none
  name : Option Str := none
  html_url : Option Str := none
  stargazers_count : Option Int := none
  language : Option Str := none
  description : Option Str := none
  state : Option Str := none
  title : Option Str := none
  number : Option Int := none
  userLogin : Option Str := none
  created_at : Option Str := none
  merged_at : Option Str := none
  prMergedAt : Option Str := none
deriving DecidableEq

/-! ## Table renderers -/

/-- One data row of `Pipe._repos_table` (index `i` counted from 1). -/
def reposRow (i : Nat) (r : Item) : Str :=
  let nm := r.full_name.getD (r.name.getD "?".data)
  let url := r.html_url.getD "#".data
  let stars := _fmt_number (some (r.stargazers_count.getD 0))
  let lang := if (r.language.getD []) = [] then "-".data else r.language.getD []
  let desc := _trunc (r.description.getD "-".data) 60
  "| ".data ++ natToStr i ++ " | [".data ++ nm ++ "](".data ++ url ++ ") | ".data ++
    stars ++ " | ".data ++ lang ++ " | ".data ++ desc ++ " |".data

/-- The line list built by `Pipe._repos_table`: two header lines, then one row
per item of `items[:15]`, enumerated from 1. -/
def reposTableLines (items : List Item) : List Str :=
  "| # | Repository | Stars | Language | Description |".data ::
  "|---|-----------|-------|----------|-------------|".data ::
  ((items.take 15).enum.map (fun p => reposRow (p.1 + 1) p.2))

/-- `Pipe._repos_table`. -/
def _repos_table (items : List Item) : Str := joinNL (reposTableLines items)

/-- One data row of `Pipe._issues_table`. -/
def issuesRow (i : Nat) (iss : Item) : Str :=
  let state := if iss.state = some "open".data then "Open".data else "Closed".data
  let title := _trunc (iss.title.getD "?".data) 60
  let url := iss.html_url.getD "#".data
  let num := match iss.number with | some n => intToStr n | none => []
  let author := iss.userLogin.getD "?".data
  let created := (iss.created_at.getD []).take 10
  "| ".data ++ natToStr i ++ " | ".data ++ state ++ " | [#".data ++ num ++ " ".data ++
    title ++ "](".data ++ url ++ ") | @".data ++ author ++ " | ".data ++ created ++ " |".data

/-- The line list built by `Pipe._issues_table`. -/
def issuesTableLines (items : List Item) : List Str :=
  "| # | State | Issue | Author | Created |".data ::
  "|---|-------|-------|--------|---------|".data ::
  ((items.take 15).enum.map (fun p => issuesRow (p.1 + 1) p.2))

/-- `Pipe._issues_table`. -/
def _issues_table (items : List Item) : Str := joinNL (issuesTableLines items)

/-- Truthiness of `pr.get("pull_request", {}).get("merged_at") or pr.get("merged_at")`. -/
def prIsMerged (pr : Item) : Bool :=
  !(pr.prMergedAt.getD []).isEmpty || !(pr.merged_at.getD []).isEmpty

/-- One data row of `Pipe._prs_table`. -/
def prsRow (i : Nat) (pr : Item) : Str :=
  let state :=
    if prIsMerged pr then "Merged".data
    else if pr.state = some "open".data then "Open".data
    else "Closed".data
  let title := _trunc (pr.title.getD "?".data) 60
  let url := pr.html_url.getD "#".data
  let num := match pr.number with | some n => intToStr n | none => []
  let author := pr.userLogin.getD "?".data
  let created := (pr.created_at.getD []).take 10
  "| ".data ++ natToStr i ++ " | ".data ++ state ++ " | [#".data ++ num ++ " ".data ++
    title ++ "](".data ++ url ++ ") | @".data ++ author ++ " | ".data ++ created ++ " |".data

/-- The line list built by `Pipe._prs_table`. -/
def prsTableLines (items : List Item) : List Str :=
  "| # | State | Pull Request | Author | Created |".data ::
  "|---|-------|-------------|--------|---------|".data ::
  ((items.take 15).enum.map (fun p => prsRow (p.1 + 1) p.2))

/-- `Pipe._prs_table`. -/
def _prs_table (items : List Item) : Str := joinNL (prsTableLines items)

/-! ## Chart renderers -/

/-- Insertion-ordered counting (Python `dict` preserves insertion order). -/
def bumpCount : List (Str × Nat) → Str → List (Str × Nat)
  | [], l => [(l, 1)]
  | (k, v) :: t, l => if k = l then (k, v + 1) :: t else (k, v) :: bumpCount t l

/-- The `lang_counts` dictionary of `Pipe._repos_chart`. -/
def langCounts (items : List Item) : List (Str × Nat) :=
  items.foldl
    (fun acc r =>
      let lang := if (r.language.getD []) = [] then "Other".data else r.language.getD []
      bumpCount acc lang) []

/-- Stable insertion of `x` after all earlier elements of key ≥ its own. -/
def insDesc (key : α → Int) (acc : List α) (x : α) : List α :=
  match acc with
  | [] => [x]
  | y :: ys => if key x ≤ key y then y :: insDesc key ys x else x :: y :: ys

/-- Stable descending sort by `key` (models Python `sorted` with a negated key,
or `reverse=True`; `sorted` is stable). -/
def sortDesc (key : α → Int) (l : List α) : List α :=
  l.foldl (insDesc key) []

/-- `", ".join`. -/
def joinComma : List Str → Str
  | [] => []
  | [l] => l
  | l :: ls => l ++ ", ".data ++ joinComma ls

/-- The largest element of `values` (`max(values) if values else 100`). -/
def maxOr100 : List Int → Int
  | [] => 100
  | v :: vs => vs.foldl max v

/-- `Pipe._repos_chart`. `(maxVal * 12) / 10` models `int(max_val * 1.2)`
(float product truncated toward zero; exact whenever the product is). -/
def _repos_chart (items : List Item) (chart_type : Str) : Str :=
  if chart_type = "pie".data then
    let counted := sortDesc (fun p => (p.2 : Int)) (langCounts items)
    joinNL
      ("```mermaid".data :: "pie showData".data ::
        "    title \"Repositories by Language\"".data ::
        ((counted.take 10).map (fun p => "    \"".data ++ p.1 ++ "\" : ".data ++ natToStr p.2)
          ++ ["```".data]))
  else
    let bar_items := (sortDesc (fun r => r.stargazers_count.getD 0) items).take 10
    let names := bar_items.map (fun r => _trunc (r.name.getD "?".data) 15)
    let values := bar_items.map (fun r => r.stargazers_count.getD 0)
    let max_val := maxOr100 values
    let labels := joinComma (names.map (fun n => '"' :: n ++ ['"']))
    let vals := joinComma (values.map intToStr)
    "```mermaid\nxychart-beta\n    title \"Top Repositories by Stars\"\n    x-axis [".data ++
      labels ++ "]\n    y-axis \"Stars\" 0 --> ".data ++ intToStr ((max_val * 12) / 10) ++
      "\n    bar [".data ++ vals ++ "]\n```".data

/-! ## The direct GitHub API call and formatting fast path -/

/-- The JSON body consumed by `_direct_format` (`items`, `total_count`), plus
the `{"error": ...}` payload `_github_api` fabricates on failure. -/
structure ApiBody where
  items : Option (List Item) := none
  total_count : Option Int := none
  errorMsg : Option Str := none
deriving DecidableEq

/-- Outcome of the `requests.get(...).json()` round-trip in `Pipe._github_api`:
either a decoded JSON body, or any raised exception (network or decode error)
with its message. -/
inductive NetResult where
  | ok (body : ApiBody) : NetResult
  | exn (e : Str) : NetResult

/-- `Pipe._github_api`: on any exception, return `{"error": str(e)}` instead of
raising (such a body has no `items` and no `total_count`). -/
def _github_api (_endpoint : Str) (net : NetResult) : ApiBody :=
  match net with
  | .ok body => body
  | .exn e => { errorMsg := some e }

/-- Header line `Found **N** <noun> for ` + backquoted query + blank line. -/
def foundHeader (total : Int) (noun : Str) (query : Str) : Str :=
  "Found **".data ++ _fmt_number (some total) ++ "** ".data ++ noun ++ " for `".data ++
    query ++ "`\n\n".data

/-- `Pipe._direct_format`: search GitHub directly and return a formatted
table/chart, or `none` (the fall-back signal).  `net` is the outcome of the
single HTTP search call the function performs. -/
def _direct_format (user_msg : Str) (net : NetResult) : Option Str :=
  let fmt := _detect_format user_msg
  let chart_type := _detect_chart_type user_msg
  let (search_type, query, _sort) := _extract_search_params user_msg
  if search_type = "repos".data then
    let data := _github_api "/search/repositories".data net
    let items := data.items.getD []
    if items = [] then none
    else
      let total := data.total_count.getD items.length
      let header := foundHeader total "repositories".data query
      if fmt = "table".data then some (header ++ _repos_table items)
      else some (header ++ _repos_chart items chart_type)
  else if search_type = "issues".data then
    let data := _github_api "/search/issues".data net
    let items := data.items.getD []
    if items = [] then none
    else
      let total := data.total_count.getD items.length
      let header := foundHeader total "issues".data query
      if fmt = "table".data then some (header ++ _issues_table items)
      else
        let open_count := items.countP (fun i => i.state = some "open".data)
        let closed_count : Int := (items.length : Int) - open_count
        some (header ++
          "```mermaid\npie showData\n    title \"Issues by State\"\n    \"Open\" : ".data ++
          natToStr open_count ++ "\n    \"Closed\" : ".data ++ intToStr closed_count ++
          "\n```".data)
  else if search_type = "prs".data then
    let data := _github_api "/search/issues".data net
    let items := data.items.getD []
    if items = [] then none
    else
      let total := data.total_count.getD items.length
      let header := foundHeader total "pull requests".data query
      if fmt = "table".data then some (header ++ _prs_table items)
      else
        let open_c := items.countP (fun i => i.state = some "open".data)
        let merged_c := items.countP prIsMerged
        let closed_c : Int := (items.length : Int) - open_c - merged_c
        some (header ++
          "```mermaid\npie showData\n    title \"Pull Requests by State\"\n    \"Open\" : ".data ++
          natToStr open_c ++ "\n    \"Merged\" : ".data ++ natToStr merged_c ++
          "\n    \"Closed\" : ".data ++ intToStr closed_c ++ "\n```".data)
  else none

/-! ## Tool execution (`Pipe._execute_tool`) -/

/-- Outcome of the `requests.post(...)` to the tool proxy: a raw response text,
or a raised exception with its message. -/
inductive ToolNet where
  | ok (text : Str) : ToolNet
  | exn (e : Str) : ToolNet

/-- Minimal JSON string escaping, for `json.dumps({"error": str(e)})`
(backslash and double quote; the braces are written as escapes). -/
def jsonEscape : Str → Str
  | [] => []
  | c :: t =>
    if c = '"' then '\\' :: '"' :: jsonEscape t
    else if c = '\\' then '\\' :: '\\' :: jsonEscape t
    else c :: jsonEscape t

/-- `json.dumps({"error": str(e)})`. -/
def jsonErrorDump (e : Str) : Str :=
  "\x7b\"error\": \"".data ++ jsonEscape e ++ "\"\x7d".data

/-- `Pipe._execute_tool`: the proxy response text, truncated after 6000
characters with a marker; exceptions become a JSON error string. -/
def _execute_tool (net : ToolNet) : Str :=
  match net with
  | .ok result =>
    if 6000 < result.length then result.take 6000 ++ "\n... (truncated)".data
    else result
  | .exn e => jsonErrorDump e

/-! ## Response cleaning (`Pipe._clean_response`) -/

/-- `re.sub(r'<\|im_start\|>.*', '', content, flags=re.DOTALL)`: with DOTALL the
first match runs to the end of the text, so everything from the first
occurrence of the token is removed. -/
def cutFromTok (tok : Str) : Str → Str
  | [] => []
  | c :: t => if leadsOf tok (c :: t) then [] else c :: cutFromTok tok t

/-- Remove every (non-overlapping, leftmost-first) occurrence of `tok`; fuelled,
each step consumes at least one character. -/
def removeTokF (tok : Str) : Nat → Str → Str
  | 0, s => s
  | _ + 1, [] => []
  | f + 1, c :: t =>
    if leadsOf tok (c :: t) && !tok.isEmpty then
      removeTokF tok f (List.drop (tok.length - 1) t)
    else c :: removeTokF tok f t

/-- `re.sub(tok_literal, '', s)` for a literal token. -/
def removeTok (tok s : Str) : Str := removeTokF tok s.length s

/-- The chart-starter keywords of `_clean_response`. -/
def mermaidKeys : List Str :=
  ["pie", "pie showData", "xychart-beta", "graph", "flowchart", "gantt"].map String.data

/-- The per-line loop of `_clean_response`, carrying `in_mermaid` and `in_code`;
the close test peeks at the next two lines of the remaining input, exactly as
the Python loop indexes `lines[i+1]` and `lines[i+2]`. -/
def fixLines (inM inC : Bool) : List Str → List Str
  | [] => if inM then ["```".data] else []
  | line :: rest =>
    let stripped := strip line
    let inC1 := if leadsOf "```".data stripped then !inC else inC
    let hit := !inC1 && !inM && (mermaidKeys.contains stripped)
    let inM1 := inM || hit
    let inC2 := inC1 || hit
    let closeNow := inM1 &&
      (match rest with
       | [] => false
       | nxt :: rest2 =>
         (strip nxt == []) &&
         (match rest2 with
          | [] => true
          | n2 :: _ => !leadsOf "    ".data n2))
    let emitted := if hit then ["```mermaid".data, line] else [line]
    if closeNow then emitted ++ "```".data :: fixLines false false rest
    else emitted ++ fixLines inM1 inC2 rest

/-- The scan state of the `_clean_response` loop over a prefix of lines during
which no chart block is opened: returns the final `in_code` flag, or `none` as
soon as some line would open a chart block.  (`in_mermaid` stays `false`
throughout such a prefix, so the two-line close lookahead never fires and the
lines pass through unchanged.) -/
def preScan (inC : Bool) : List Str → Option Bool
  | [] => some inC
  | line :: rest =>
    let stripped := strip line
    let inC1 := if leadsOf "```".data stripped then !inC else inC
    if !inC1 && (mermaidKeys.contains stripped) then none
    else preScan inC1 rest

/-- `Pipe._clean_response`: strip leaked special tokens, auto-fence unfenced
chart blocks, and strip surrounding whitespace. -/
def _clean_response (content : Str) : Str :=
  let c1 := cutFromTok "<|im_start|>".data content
  let c2 := removeTok "<|im_end|>".data c1
  let c3 := removeTok "<|endoftext|>".data c2
  strip (joinNL (fixLines false false (splitNL c3)))

/-! # Claims -/

/-- Any decimal digit character produced by `digitChar` on a value below ten
satisfies `Char.isDigit`. -/
theorem digitChar_isDigit {d : Nat} (h : d < 10) : (digitChar d).isDigit = true := by
  interval_cases d <;> decide

/-- C10: `_detect_chart_type` returns `"bar"` iff the lowercased message
contains the substring `"bar"`; `"line"` iff it contains `"line"` but not
`"bar"`; and `"pie"` exactly when neither substring occurs — the word `"pie"`
itself is never examined. -/
theorem C10_detect_chart_type_cases (m : Str) :
    (_detect_chart_type m = "bar".data ↔ containsSub (lowerS m) "bar".data = true) ∧
    (_detect_chart_type m = "line".data ↔
      containsSub (lowerS m) "line".data = true ∧ containsSub (lowerS m) "bar".data = false) ∧
    (_detect_chart_type m = "pie".data ↔
      containsSub (lowerS m) "bar".data = false ∧ containsSub (lowerS m) "line".data = false) := by
  unfold _detect_chart_type
  by_cases hb : containsSub (lowerS m) "bar".data = true
  · simp only [hb, if_true]
    refine ⟨by simp, ?_, ?_⟩ <;> simp [hb]
  · simp only [Bool.not_eq_true] at hb
    simp only [hb, Bool.false_eq_true, if_false]
    by_cases hl : containsSub (lowerS m) "line".data = true
    · simp only [hl, if_true]
      refine ⟨?_, by simp [hl, hb], ?_⟩ <;> simp [hb, hl]
    · simp only [Bool.not_eq_true] at hl
      simp only [hl, Bool.false_eq_true, if_false]
      refine ⟨?_, ?_, by simp [hb, hl]⟩ <;> simp [hb, hl]

/-- C8: `_execute_tool` returns the proxy response text unchanged when it is at
most 6000 characters long, and otherwise the first 6000 characters followed by
the truncation marker. -/
theorem C8_execute_tool_truncation :
    (∀ t : Str, t.length ≤ 6000 → _execute_tool (.ok t) = t) ∧
    (∀ t : Str, 6000 < t.length →
      _execute_tool (.ok t) = t.take 6000 ++ "\n... (truncated)".data) := by
  constructor
  · intro t ht
    simp only [_execute_tool]
    rw [if_neg (by omega)]
  · intro t ht
    simp only [_execute_tool]
    rw [if_pos ht]

/-- Witness for C8: a short response is returned unchanged, and a 6001-character
response is cut at 6000 characters and marked. -/
theorem C8_execute_tool_truncation_witness :
    _execute_tool (.ok "ok".data) = "ok".data ∧
    _execute_tool (.ok (List.replicate 6001 'a')) =
      (List.replicate 6001 'a').take 6000 ++ "\n... (truncated)".data :=
  ⟨C8_execute_tool_truncation.1 "ok".data (by decide),
   C8_execute_tool_truncation.2 (List.replicate 6001 'a')
     (by rw [List.length_replicate]; omega)⟩

/-- C6: `_fmt_number` maps `999 ↦ "999"`, `1500 ↦ "1.5k"`, `2500000 ↦ "2.5M"`;
every value ≥ 1e6 is rendered with one decimal digit and an `M` suffix, every
value in [1e3, 1e6) with one decimal digit and a `k` suffix, and every smaller
value as the plain integer. -/
theorem C6_fmt_number_spec :
    _fmt_number (some 999) = "999".data ∧
    _fmt_number (some 1500) = "1.5k".data ∧
    _fmt_number (some 2500000) = "2.5M".data ∧
    (∀ n : Int, 1000000 ≤ n →
      ∃ a : Str, ∃ d : Char, d.isDigit = true ∧
        _fmt_number (some n) = a ++ '.' :: d :: ['M']) ∧
    (∀ n : Int, 1000 ≤ n → n < 1000000 →
      ∃ a : Str, ∃ d : Char, d.isDigit = true ∧
        _fmt_number (some n) = a ++ '.' :: d :: ['k']) ∧
    (∀ n : Int, n < 1000 → _fmt_number (some n) = intToStr n) := by
  refine ⟨by decide, by decide, by decide, ?_, ?_, ?_⟩
  · intro n h
    refine ⟨natToStr (roundHE (10 * n.toNat) 1000000 / 10),
            digitChar (roundHE (10 * n.toNat) 1000000 % 10),
            digitChar_isDigit (Nat.mod_lt _ (by norm_num)), ?_⟩
    simp only [_fmt_number]
    rw [if_pos h]
    simp [fmtDiv1]
  · intro n h1 h2
    refine ⟨natToStr (roundHE (10 * n.toNat) 1000 / 10),
            digitChar (roundHE (10 * n.toNat) 1000 % 10),
            digitChar_isDigit (Nat.mod_lt _ (by norm_num)), ?_⟩
    simp only [_fmt_number]
    rw [if_neg (by omega), if_pos h1]
    simp [fmtDiv1]
  · intro n h
    simp only [_fmt_number]
    rw [if_neg (by omega), if_neg (by omega)]

/-- Witness for C6: the bounded claims applied at 7300000 (`"7.3M"` shape),
4200 (`"4.2k"` shape) and 42 (plain integer). -/
theorem C6_fmt_number_spec_witness :
    (∃ a : Str, ∃ d : Char, d.isDigit = true ∧
      _fmt_number (some 7300000) = a ++ '.' :: d :: ['M']) ∧
    (∃ a : Str, ∃ d : Char, d.isDigit = true ∧
      _fmt_number (some 4200) = a ++ '.' :: d :: ['k']) ∧
    _fmt_number (some 42) = intToStr 42 :=
  ⟨C6_fmt_number_spec.2.2.2.1 7300000 (by decide),
   C6_fmt_number_spec.2.2.2.2.1 4200 (by decide) (by decide),
   C6_fmt_number_spec.2.2.2.2.2 42 (by decide)⟩

/-- The first component of `_extract_search_params` is the detected search
type, whatever the owner/repo match does. -/
theorem extract_fst (m : Str) :
    (_extract_search_params m).1 = searchTypeOf (lowerS m) := by
  unfold _extract_search_params
  cases h : reSearchRepo m
  · rfl
  · dsimp only
    split <;> rfl

/-- When the owner/repo branch is not taken, the query built by
`_extract_search_params` is the keyword branch and the sort key is `"stars"`. -/
theorem extract_query_of_no_repo_branch (m : Str)
    (h : reSearchRepo m = none ∨ (_extract_search_params m).1 = "repos".data) :
    (_extract_search_params m).2.1 = kwBranchOf (lowerS m) ∧
    (_extract_search_params m).2.2 = "stars".data := by
  rw [extract_fst] at h
  unfold _extract_search_params
  cases hr : reSearchRepo m with
  | none => exact ⟨rfl, rfl⟩
  | some rm =>
    rcases h with h | h
    · rw [hr] at h
      exact absurd h (by simp)
    · dsimp only
      rw [if_neg]
      · exact ⟨rfl, rfl⟩
      · rw [h]
        decide

/-- `leadsOf p` accepts any extension of `p`. -/
theorem leadsOf_append (p t : Str) : leadsOf p (p ++ t) = true := by
  induction p with
  | nil => rfl
  | cons c cs ih => simp [leadsOf, ih]

/-- A displayed occurrence makes `containsSub` true. -/
theorem containsSub_of_decomp {s sub : Str} (h : ∃ a b, s = a ++ (sub ++ b)) :
    containsSub s sub = true := by
  obtain ⟨a, b, rfl⟩ := h
  induction a with
  | nil =>
    rw [containsSub.eq_def]
    simp [leadsOf_append]
  | cons c cs ih =>
    rw [List.cons_append, containsSub.eq_def]
    dsimp only
    split
    · rfl
    · exact ih

/-- `joinSpace` exhibits each member of the list as a segment. -/
theorem joinSpace_decomp : ∀ {l : List Str} {x : Str}, x ∈ l →
    ∃ a b, joinSpace l = a ++ (x ++ b) := by
  intro l
  induction l with
  | nil => simp
  | cons y ys ih =>
    intro x hx
    rcases List.mem_cons.mp hx with rfl | hx'
    · cases ys with
      | nil => exact ⟨[], [], by simp [joinSpace]⟩
      | cons z zs => exact ⟨[], ' ' :: joinSpace (z :: zs), by simp [joinSpace]⟩
    · cases ys with
      | nil => cases hx'
      | cons z zs =>
        obtain ⟨a, b, hab⟩ := ih hx'
        exact ⟨y ++ ' ' :: a, b, by simp [joinSpace, hab]⟩

/-- Every extracted keyword has more than two characters. -/
theorem keywordsOf_long {msg x : Str} (hx : x ∈ keywordsOf msg) : 2 < x.length := by
  have := (List.mem_filter.mp hx).2
  exact of_decide_eq_true this

/-- `joinSpace` of a nonempty list of nonempty parts is nonempty. -/
theorem joinSpace_ne_nil : ∀ {l : List Str}, l ≠ [] → (∀ x ∈ l, x ≠ []) →
    joinSpace l ≠ []
  | [], h, _ => absurd rfl h
  | [x], _, hall => by simpa [joinSpace] using hall x (by simp)
  | _ :: _ :: _, _, _ => by simp [joinSpace]

/-- Every part assembled in the keyword branch is a nonempty string. -/
theorem parts_ne_nil {msg x : Str}
    (hx : x ∈ (keywordsOf msg).filter (fun k => k ∉ languagesL) ++
      ((keywordsOf msg).filter (fun k => k ∈ languagesL)).map
        (fun k => "language:".data ++ k)) : x ≠ [] := by
  rcases List.mem_append.mp hx with hx | hx
  · have := keywordsOf_long (List.mem_filter.mp hx).1
    intro hnil
    rw [hnil] at this
    simp at this
  · obtain ⟨k, _, rfl⟩ := List.mem_map.mp hx
    simp

/-- The keyword branch always builds a nonempty query string. -/
theorem kwBranchOf_ne_nil (msg : Str) : kwBranchOf msg ≠ [] := by
  unfold kwBranchOf
  by_cases hk : keywordsOf msg ≠ []
  · rw [if_pos hk]
    dsimp only
    split
    · split
      · apply joinSpace_ne_nil
        · assumption
        · intro x hx
          rcases List.mem_append.mp hx with hx' | hx'
          · exact parts_ne_nil hx'
          · simp only [List.mem_singleton] at hx'
            subst hx'
            simp
      · decide
    · split
      · apply joinSpace_ne_nil
        · assumption
        · intro x hx
          exact parts_ne_nil hx
      · decide
  · rw [if_neg hk]
    decide

/-- C3: a lowercased message containing an issues-domain keyword (`"issue"` —
hence also `"issues"` — or `"bug"`) always classifies as the issues domain,
whatever else it contains. -/
theorem C3_issue_keyword_domain (m : Str)
    (h : containsSub (lowerS m) "issue".data = true ∨
         containsSub (lowerS m) "bug".data = true) :
    (_extract_search_params m).1 = "issues".data := by
  rw [extract_fst]
  unfold searchTypeOf
  rcases h with h | h <;> simp [h]

/-- Witness for C3: `"please fix this bug"` and `"pie chart of issues"` both
classify as issues. -/
theorem C3_issue_keyword_domain_witness :
    (_extract_search_params "please fix this bug".data).1 = "issues".data ∧
    (_extract_search_params "pie chart of issues".data).1 = "issues".data :=
  ⟨C3_issue_keyword_domain "please fix this bug".data (Or.inr (by decide)),
   C3_issue_keyword_domain "pie chart of issues".data (Or.inl (by decide))⟩

/-- C2: when the message contains an owner/name token and the domain is issues
or pull requests, the query is exactly `repo:` followed by the matched token,
and the sort key is `"created"`. -/
theorem C2_repo_scoped_query (m rm : Str)
    (hm : reSearchRepo m = some rm)
    (hdom : (_extract_search_params m).1 = "issues".data ∨
            (_extract_search_params m).1 = "prs".data) :
    (_extract_search_params m).2.1 = "repo:".data ++ rm ∧
    (_extract_search_params m).2.2 = "created".data := by
  rw [extract_fst] at hdom
  unfold _extract_search_params
  rw [hm]
  dsimp only
  rw [if_pos hdom]
  exact ⟨rfl, rfl⟩

/-- Witness for C2: `"pie chart of issues in facebook/react"` yields the query
`repo:facebook/react` and sort `created`. -/
theorem C2_repo_scoped_query_witness :
    (_extract_search_params "pie chart of issues in facebook/react".data).2.1 =
      "repo:".data ++ "facebook/react".data ∧
    (_extract_search_params "pie chart of issues in facebook/react".data).2.2 =
      "created".data :=
  C2_repo_scoped_query "pie chart of issues in facebook/react".data
    "facebook/react".data (by decide) (Or.inl (by decide))

/-- C9: every branch of the query construction yields a nonempty query string:
a `repo:` qualifier, a space-join of nonempty parts, or `stars:>1000`. -/
theorem C9_query_nonempty (m : Str) : (_extract_search_params m).2.1 ≠ [] := by
  unfold _extract_search_params
  cases hr : reSearchRepo m with
  | none => exact kwBranchOf_ne_nil (lowerS m)
  | some rm =>
    dsimp only
    split
    · simp
    · exact kwBranchOf_ne_nil (lowerS m)

/-- C4: a failed search call (network or decode exception) is captured by
`_github_api` as an `{"error": ...}` body instead of raising — such a body has
no `items` — and whenever the body's item collection is empty or absent,
`_direct_format` returns `none`, the signal to fall back to the model path.
(`_direct_format` and `_github_api` are total Lean functions: no exception can
propagate.) -/
theorem C4_api_failure_fallback :
    (∀ ep e : Str, _github_api ep (.exn e) =
      { items := none, total_count := none, errorMsg := some e }) ∧
    (∀ (m : Str) (net : NetResult),
      (∀ ep : Str, ((_github_api ep net).items.getD []) = []) →
      _direct_format m net = none) := by
  constructor
  · intro ep e
    rfl
  · intro m net hempty
    unfold _direct_format
    rcases he : _extract_search_params m with ⟨st, q, srt⟩
    dsimp only
    by_cases h1 : st = "repos".data
    · rw [if_pos h1, if_pos (hempty _)]
    · rw [if_neg h1]
      by_cases h2 : st = "issues".data
      · rw [if_pos h2, if_pos (hempty _)]
      · rw [if_neg h2]
        by_cases h3 : st = "prs".data
        · rw [if_pos h3, if_pos (hempty _)]
        · rw [if_neg h3]

/-- Witness for C4: a raised network error on a table request yields `none`. -/
theorem C4_api_failure_fallback_witness :
    _direct_format "table of popular repos".data (.exn "connection refused".data) =
      none :=
  C4_api_failure_fallback.2 "table of popular repos".data
    (.exn "connection refused".data) (fun _ => rfl)

/-- C1 is falsified by `"top facebook/react issues"`: its lowercased text
contains the popularity word `"top"`, yet the built query is
`repo:facebook/react`, which does not contain `stars:>100` — the popularity
qualifier is only appended in the keyword branch, which the owner/repo branch
bypasses. -/
theorem C1_counterexample :
    containsSub (lowerS "top facebook/react issues".data) "top".data = true ∧
    (_extract_search_params "top facebook/react issues".data).2.1 =
      "repo:facebook/react".data ∧
    containsSub (_extract_search_params "top facebook/react issues".data).2.1
      "stars:>100".data = false := by decide

/-- C1 (amended): for every message whose lowercased text contains a popularity
word, the built query contains `stars:>100` — provided the owner/repo branch is
not taken (no owner/name token, or a repos domain); in the owner/repo branch
the query is `repo:<token>` without the qualifier. -/
theorem C1_popularity_qualifier (m : Str)
    (hpop : popularityIn (lowerS m) = true)
    (hbranch : reSearchRepo m = none ∨ (_extract_search_params m).1 = "repos".data) :
    containsSub (_extract_search_params m).2.1 "stars:>100".data = true := by
  obtain ⟨hq, _⟩ := extract_query_of_no_repo_branch m hbranch
  rw [hq]
  unfold kwBranchOf
  by_cases hk : keywordsOf (lowerS m) ≠ []
  · rw [if_pos hk]
    dsimp only
    rw [if_pos hpop]
    split
    · apply containsSub_of_decomp
      exact joinSpace_decomp (by simp)
    · next h => simp at h
  · rw [if_neg hk]
    decide

/-- Witness for C1 (amended): `"show me popular python repos"` gets a query
containing `stars:>100`. -/
theorem C1_popularity_qualifier_witness :
    containsSub (_extract_search_params "show me popular python repos".data).2.1
      "stars:>100".data = true :=
  C1_popularity_qualifier "show me popular python repos".data (by decide)
    (Or.inl (by decide))

/-- A text with no occurrence of `tok` passes `cutFromTok` unchanged. -/
theorem cutFromTok_id {tok : Str} : ∀ {s : Str},
    containsSub s tok = false → cutFromTok tok s = s := by
  intro s
  induction s with
  | nil => intro _; rfl
  | cons c t ih =>
    intro h
    rw [containsSub.eq_def] at h
    dsimp only at h
    by_cases hl : leadsOf tok (c :: t) = true
    · rw [if_pos hl] at h
      cases h
    · rw [if_neg hl] at h
      unfold cutFromTok
      rw [if_neg hl]
      exact congrArg (List.cons c) (ih h)

/-- A text with no occurrence of `tok` passes `removeTokF` unchanged. -/
theorem removeTokF_id {tok : Str} : ∀ (s : Str) (f : Nat),
    containsSub s tok = false → removeTokF tok f s = s := by
  intro s
  induction s with
  | nil =>
    intro f _
    cases f <;> rfl
  | cons c t ih =>
    intro f h
    rw [containsSub.eq_def] at h
    dsimp only at h
    by_cases hl : leadsOf tok (c :: t) = true
    · rw [if_pos hl] at h
      cases h
    · rw [if_neg hl] at h
      simp only [Bool.not_eq_true] at hl
      cases f with
      | zero => rfl
      | succ f2 =>
        rw [removeTokF, hl]
        simp only [Bool.false_and, Bool.false_eq_true, if_false]
        exact congrArg (List.cons c) (ih f2 h)

/-- On token-free input, `_clean_response` is exactly the fence-fixing scan
followed by the whitespace strip. -/
theorem clean_response_token_free (content : Str)
    (h1 : containsSub content "<|im_start|>".data = false)
    (h2 : containsSub content "<|im_end|>".data = false)
    (h3 : containsSub content "<|endoftext|>".data = false) :
    _clean_response content =
      strip (joinNL (fixLines false false (splitNL content))) := by
  have e1 : cutFromTok "<|im_start|>".data content = content := cutFromTok_id h1
  have e2 : removeTok "<|im_end|>".data content = content := removeTokF_id _ _ h2
  have e3 : removeTok "<|endoftext|>".data content = content := removeTokF_id _ _ h3
  unfold _clean_response
  dsimp only
  rw [e1, e2, e3]

/-- Lines scanned while no chart block is open (and no fence state is pending
at the end) pass through the fixing loop unchanged. -/
theorem fixLines_preScan : ∀ (pre : List Str) (inC c : Bool) (rest : List Str),
    preScan inC pre = some c →
    fixLines false inC (pre ++ rest) = pre ++ fixLines false c rest := by
  intro pre
  induction pre with
  | nil =>
    intro inC c rest h
    obtain rfl : inC = c := by simpa [preScan] using h
    simp
  | cons line pre2 ih =>
    intro inC c rest h
    rw [preScan] at h
    dsimp only at h
    by_cases hcond :
        (!(if leadsOf "```".data (strip line) = true then !inC else inC) &&
          mermaidKeys.contains (strip line)) = true
    · rw [if_pos hcond] at h
      cases h
    · rw [if_neg hcond] at h
      simp only [Bool.not_eq_true] at hcond
      rw [List.cons_append, fixLines.eq_def]
      dsimp only
      simp only [Bool.not_false, Bool.and_true, hcond, Bool.or_false, Bool.false_and,
        Bool.false_eq_true, if_false, Bool.and_false]
      rw [ih _ _ _ h]
      rfl

/-- A whitespace-only line outside any block passes through unchanged. -/
theorem fixLines_blank (bl : Str) (post : List Str) (hbl : strip bl = []) :
    fixLines false false (bl :: post) = bl :: fixLines false false post := by
  have hA : leadsOf "```".data ([] : Str) = false := rfl
  have hB : mermaidKeys.contains ([] : Str) = false := by decide
  rw [fixLines.eq_def]
  dsimp only
  rw [hbl]
  simp only [hA, hB, Bool.not_false, Bool.and_true, Bool.and_false, Bool.or_false,
    Bool.false_and, Bool.false_eq_true, if_false]
  rfl

/-- Inside an open chart block, indented non-blank non-fence lines pass through
until the blank terminator, where the closing fence is emitted. -/
theorem fixLines_block : ∀ (body : List Str) (bl : Str) (post : List Str),
    body ≠ [] →
    (∀ x ∈ body, leadsOf "    ".data x = true ∧ strip x ≠ [] ∧
      leadsOf "```".data (strip x) = false) →
    strip bl = [] →
    (∀ p, post.head? = some p → leadsOf "    ".data p = false) →
    fixLines true true (body ++ bl :: post) =
      body ++ "```".data :: fixLines false false (bl :: post) := by
  intro body
  induction body with
  | nil =>
    intro bl post hne _ _ _
    exact absurd rfl hne
  | cons b body2 ih =>
    intro bl post _ hall hbl hpost
    obtain ⟨hb4, hbs, hbt⟩ := hall b (by simp)
    cases body2 with
    | nil =>
      have hbeq : (([] : Str) == []) = true := rfl
      rw [List.cons_append, List.nil_append, fixLines.eq_def]
      dsimp only
      rw [hbt, hbl]
      simp only [Bool.not_true, Bool.false_and, Bool.and_false, Bool.false_eq_true,
        if_false, Bool.or_false, Bool.true_and, hbeq, Bool.and_true]
      cases post with
      | nil => rfl
      | cons p ps =>
        dsimp only
        rw [hpost p rfl]
        rfl
    | cons b2 body3 =>
      obtain ⟨_, hbs2, _⟩ := hall b2 (by simp)
      rw [List.cons_append, fixLines.eq_def]
      dsimp only
      rw [hbt]
      simp only [Bool.not_true, Bool.false_and, Bool.and_false, Bool.false_eq_true,
        if_false, Bool.or_false, List.cons_append, beq_eq_false_iff_ne.mpr hbs2,
        Bool.true_and]
      have ihh := ih bl post (by simp) (fun x hx => hall x (by simp [hx])) hbl hpost
      rw [List.cons_append] at ihh
      rw [ihh]
      simp

/-- The unfenced `pie showData` line opens a chart block: the opening fence is
inserted before it and the closing fence after the indented body. -/
theorem fixLines_open (lp : Str) (body : List Str) (bl : Str) (post : List Str)
    (hlp : strip lp = "pie showData".data)
    (hbody_ne : body ≠ [])
    (hall : ∀ x ∈ body, leadsOf "    ".data x = true ∧ strip x ≠ [] ∧
      leadsOf "```".data (strip x) = false)
    (hbl : strip bl = [])
    (hpost : ∀ p, post.head? = some p → leadsOf "    ".data p = false) :
    fixLines false false (lp :: (body ++ bl :: post)) =
      "```mermaid".data :: lp ::
        (body ++ "```".data :: fixLines false false (bl :: post)) := by
  have hA : leadsOf "```".data "pie showData".data = false := by decide
  have hB : mermaidKeys.contains "pie showData".data = true := by decide
  cases body with
  | nil => exact absurd rfl hbody_ne
  | cons b body2 =>
    obtain ⟨_, hbs, _⟩ := hall b (by simp)
    rw [fixLines.eq_def]
    dsimp only
    rw [hlp]
    simp only [hA, hB, Bool.not_false, Bool.and_true, Bool.true_and, Bool.and_self,
      Bool.false_eq_true, if_false, if_true, Bool.or_true, Bool.true_or,
      List.cons_append, beq_eq_false_iff_ne.mpr hbs, Bool.and_false]
    have hblk := fixLines_block (b :: body2) bl post (by simp) hall hbl hpost
    rw [List.cons_append] at hblk
    rw [hblk]
    simp

/-- `joinNL` over a cons with nonempty tail inserts one separator. -/
theorem joinNL_cons_ne (x : Str) {ys : List Str} (h : ys ≠ []) :
    joinNL (x :: ys) = x ++ '\n' :: joinNL ys := by
  cases ys with
  | nil => exact absurd rfl h
  | cons y ys2 => rfl

/-- `joinNL` distributes over append of nonempty line lists. -/
theorem joinNL_append : ∀ (xs ys : List Str), xs ≠ [] → ys ≠ [] →
    joinNL (xs ++ ys) = joinNL xs ++ '\n' :: joinNL ys := by
  intro xs
  induction xs with
  | nil =>
    intro ys h _
    exact absurd rfl h
  | cons x xs2 ih =>
    intro ys _ hys
    cases xs2 with
    | nil =>
      rw [List.cons_append, List.nil_append, joinNL_cons_ne x hys]
      rfl
    | cons x2 xs3 =>
      rw [List.cons_append, joinNL_cons_ne x (show (x2 :: xs3) ++ ys ≠ [] by simp),
        ih ys (by simp) hys, joinNL_cons_ne x (show (x2 :: xs3) ≠ [] by simp)]
      simp [List.append_assoc]

/-- `dropWhile` never reaches past a character failing the predicate: the tail
from such a character on survives intact. -/
theorem dropWhile_decomp (p : Char → Bool) :
    ∀ (a : Str) {c : Char} (t : Str), p c = false →
    ∃ a2 : Str, List.dropWhile p (a ++ c :: t) = a2 ++ c :: t := by
  intro a
  induction a with
  | nil =>
    intro c t hc
    exact ⟨[], by simp [List.dropWhile_cons, hc]⟩
  | cons e a3 ih =>
    intro c t hc
    by_cases he : p e = true
    · obtain ⟨a4, h4⟩ := ih t hc
      exact ⟨a4, by simp [List.dropWhile_cons, he, h4]⟩
    · refine ⟨e :: a3, ?_⟩
      simp only [Bool.not_eq_true] at he
      simp [List.dropWhile_cons, he]

/-- Stripping surrounding whitespace preserves any displayed segment that
begins and ends with a non-whitespace character. -/
theorem strip_decomp (a b mid : Str) (c d : Char)
    (hc : wsChar c = false) (hd : wsChar d = false) :
    ∃ a2 b2 : Str,
      strip (a ++ (c :: (mid ++ [d])) ++ b) = a2 ++ (c :: (mid ++ [d])) ++ b2 := by
  unfold strip
  have hre : a ++ (c :: (mid ++ [d])) ++ b = a ++ c :: (mid ++ d :: b) := by
    simp
  rw [hre]
  obtain ⟨a2, h2⟩ := dropWhile_decomp wsChar a (mid ++ d :: b) hc
  rw [h2]
  have hrev : (a2 ++ c :: (mid ++ d :: b)).reverse =
      b.reverse ++ d :: (mid.reverse ++ c :: a2.reverse) := by
    simp
  rw [hrev]
  obtain ⟨b2, h3⟩ := dropWhile_decomp wsChar b.reverse (mid.reverse ++ c :: a2.reverse) hd
  rw [h3]
  refine ⟨a2, b2.reverse, ?_⟩
  simp

/-- C5 is falsified by a leaked-token input: the text below contains, outside
any code fence, a stripped `pie showData` line followed by an indented line and
a blank terminator, yet cleaning erases everything from the leading
`<|im_start|>` token, so the output is empty and carries no fence markers. -/
theorem C5_counterexample :
    splitNL "<|im_start|>\npie showData\n    a\n\nx".data =
      ["<|im_start|>".data, "pie showData".data, "    a".data, [], "x".data] ∧
    preScan false ["<|im_start|>".data] = some false ∧
    _clean_response "<|im_start|>\npie showData\n    a\n\nx".data = [] := by
  refine ⟨by decide, by decide, by decide⟩

/-- C5 (amended): on token-free input, an unfenced stripped `pie showData` line
outside any code fence (and outside any auto-opened chart block), followed by
indented non-blank non-fence body lines and terminated by a blank line whose
successor is not indented, is wrapped by cleaning in a matching fence pair:
`\`\`\`mermaid` right before it and `\`\`\`` right after the body. -/
theorem C5_unfenced_pie_block (content : Str) (pre : List Str) (lp : Str)
    (body : List Str) (bl : Str) (post : List Str)
    (h1 : containsSub content "<|im_start|>".data = false)
    (h2 : containsSub content "<|im_end|>".data = false)
    (h3 : containsSub content "<|endoftext|>".data = false)
    (hsplit : splitNL content = pre ++ lp :: (body ++ bl :: post))
    (hpre : preScan false pre = some false)
    (hlp : strip lp = "pie showData".data)
    (hbody_ne : body ≠ [])
    (hbody : ∀ x ∈ body, leadsOf "    ".data x = true ∧ strip x ≠ [] ∧
      leadsOf "```".data (strip x) = false)
    (hbl : strip bl = [])
    (hpost : ∀ p, post.head? = some p → leadsOf "    ".data p = false) :
    ∃ a b : Str,
      _clean_response content =
        a ++ ("```mermaid".data ++ '\n' ::
          (lp ++ '\n' :: (joinNL body ++ '\n' :: "```".data))) ++ b := by
  rw [clean_response_token_free content h1 h2 h3, hsplit,
      fixLines_preScan pre false false _ hpre,
      fixLines_open lp body bl post hlp hbody_ne hbody hbl hpost,
      fixLines_blank bl post hbl]
  have hgroup :
      "```mermaid".data :: lp ::
          (body ++ "```".data :: (bl :: fixLines false false post)) =
        ("```mermaid".data :: lp :: (body ++ ["```".data])) ++
          (bl :: fixLines false false post) := by
    simp
  rw [hgroup]
  have hsegne : ("```mermaid".data :: lp :: (body ++ ["```".data])) ≠ [] := by simp
  have htailne : (bl :: fixLines false false post) ≠ [] := by simp
  have hseg : joinNL ("```mermaid".data :: lp :: (body ++ ["```".data])) =
      "```mermaid".data ++ '\n' ::
        (lp ++ '\n' :: (joinNL body ++ '\n' :: "```".data)) := by
    rw [joinNL_cons_ne _ (by simp), joinNL_cons_ne _ (by simp),
        joinNL_append body ["```".data] hbody_ne (by simp)]
    rfl
  have e1 : "```mermaid".data = btChar :: "``mermaid".data := by decide
  have e2 : "```".data = "``".data ++ [btChar] := by decide
  have e3 : wsChar btChar = false := by decide
  have hcore : "```mermaid".data ++ '\n' ::
      (lp ++ '\n' :: (joinNL body ++ '\n' :: "```".data)) =
      btChar :: (("``mermaid".data ++ '\n' ::
        (lp ++ '\n' :: (joinNL body ++ '\n' :: "``".data))) ++ [btChar]) := by
    rw [e1, e2]
    simp
  cases pre with
  | nil =>
    rw [List.nil_append, joinNL_append _ _ hsegne htailne, hseg, hcore]
    have hsh : btChar :: (("``mermaid".data ++ '\n' ::
          (lp ++ '\n' :: (joinNL body ++ '\n' :: "``".data))) ++ [btChar]) ++
          '\n' :: joinNL (bl :: fixLines false false post) =
        [] ++ (btChar :: (("``mermaid".data ++ '\n' ::
          (lp ++ '\n' :: (joinNL body ++ '\n' :: "``".data))) ++ [btChar])) ++
          '\n' :: joinNL (bl :: fixLines false false post) := by
      simp
    rw [hsh]
    exact strip_decomp [] ('\n' :: joinNL (bl :: fixLines false false post)) _
      btChar btChar e3 e3
  | cons p0 pre2 =>
    rw [joinNL_append (p0 :: pre2) _ (by simp) (by simp),
        joinNL_append _ _ hsegne htailne, hseg, hcore]
    have hsh : joinNL (p0 :: pre2) ++ '\n' ::
          (btChar :: (("``mermaid".data ++ '\n' ::
            (lp ++ '\n' :: (joinNL body ++ '\n' :: "``".data))) ++ [btChar]) ++
            '\n' :: joinNL (bl :: fixLines false false post)) =
        (joinNL (p0 :: pre2) ++ ['\n']) ++ (btChar :: (("``mermaid".data ++ '\n' ::
          (lp ++ '\n' :: (joinNL body ++ '\n' :: "``".data))) ++ [btChar])) ++
          '\n' :: joinNL (bl :: fixLines false false post) := by
      simp
    rw [hsh]
    exact strip_decomp (joinNL (p0 :: pre2) ++ ['\n'])
      ('\n' :: joinNL (bl :: fixLines false false post)) _ btChar btChar e3 e3

/-- Witness for C5 (amended): a concrete five-line text whose middle block gets
fenced. -/
theorem C5_unfenced_pie_block_witness :
    ∃ a b : Str,
      _clean_response "Here\npie showData\n    one\n    two\n\nEnd".data =
        a ++ ("```mermaid".data ++ '\n' ::
          ("pie showData".data ++ '\n' ::
            (joinNL ["    one".data, "    two".data] ++ '\n' :: "```".data))) ++ b :=
  C5_unfenced_pie_block "Here\npie showData\n    one\n    two\n\nEnd".data
    ["Here".data] "pie showData".data ["    one".data, "    two".data] [] ["End".data]
    (by decide) (by decide) (by decide) (by decide) (by decide) (by decide)
    (by decide)
    (by intro x hx
        fin_cases hx <;> refine ⟨by decide, by decide, by decide⟩)
    (by decide)
    (by intro p hp
        cases hp
        decide)

/-- C7: each table renderer emits two header lines plus at most 15 data rows —
exactly `min 15 items.length` rows — and on 30 input records exactly 15 data
rows. -/
theorem C7_table_row_cap :
    (∀ items : List Item,
      (reposTableLines items).length = 2 + min 15 items.length ∧
      (issuesTableLines items).length = 2 + min 15 items.length ∧
      (prsTableLines items).length = 2 + min 15 items.length) ∧
    (reposTableLines (List.replicate 30 {})).length = 2 + 15 ∧
    (issuesTableLines (List.replicate 30 {})).length = 2 + 15 ∧
    (prsTableLines (List.replicate 30 {})).length = 2 + 15 := by
  refine ⟨fun items => ⟨?_, ?_, ?_⟩, ?_, ?_, ?_⟩ <;>
    simp [reposTableLines, issuesTableLines, prsTableLines] <;> omega

end GithubPipe
